import Mathlib

/-!
Shallow embedding of `src/cleaning.py`, a pandas-based cleaning pipeline for
the insurance dataset, together with proofs checking the natural-language
specification against it.

Modelling conventions:
* A pandas `DataFrame` is a `Table`: a row index (list of labels) plus a list
  of named, dtype-homogeneous columns.  Columns of dtype `int64` hold `Int`
  (an `int64` column can never hold a missing marker), columns of dtype
  `float64` hold `Option ℚ` (`none` is `NaN`), and columns of dtype `object`
  hold `Option String` (`none` is `NaN`).  These are exactly the dtypes
  `pd.read_csv` produces for this dataset.
* Machine floats are modelled by exact rationals (`ℚ`); every float literal
  appearing in the claims (`2.5`, `3.5`, …) is exactly representable, so no
  rounding gap is introduced.  Rational values are built with `mkRat` and
  integer arithmetic on `num`/`den` so that every definition evaluates by
  kernel reduction.
* Python exceptions are modelled by `Except PyErr`; a pipeline step that can
  raise returns `Except PyErr Table`, a step that cannot is a pure function.
* String operations are modelled on the underlying `List Char` (ASCII case
  mapping, splitting on a separator character) by structural recursion.
-/

namespace Cleaning

/-- Python exception classes that the modelled pandas calls can raise. -/
inductive PyErr where
  /-- `ValueError` (bad `keep`, non-finite to-int cast, bad `read_csv` arg). -/
  | valueError : PyErr
  /-- `AttributeError` (`.str` accessor on a non-string column). -/
  | attributeError : PyErr
  /-- `KeyError` (positional lookup `[0]` on an empty mode result). -/
  | keyError : PyErr
  /-- `FileNotFoundError` from `pd.read_csv` on a missing path. -/
  | fileNotFoundError : PyErr
deriving DecidableEq

instance {ε α : Type} [DecidableEq ε] [DecidableEq α] : DecidableEq (Except ε α)
  | .error e, .error f =>
    if h : e = f then isTrue (by rw [h]) else isFalse (fun c => h (Except.error.inj c))
  | .error _, .ok _ => isFalse (fun c => Except.noConfusion c)
  | .ok _, .error _ => isFalse (fun c => Except.noConfusion c)
  | .ok a, .ok b =>
    if h : a = b then isTrue (by rw [h]) else isFalse (fun c => h (Except.ok.inj c))

/-- One cell of a row, tagged with the dtype of the column it came from. -/
inductive Cell where
  | i (z : Int) : Cell
  | f (q : Option ℚ) : Cell
  | s (v : Option String) : Cell
deriving DecidableEq

instance : Inhabited Cell := ⟨Cell.i 0⟩

/-- The values of one column, tagged with its pandas dtype
(`int64` / `float64` / `object`). -/
inductive ColData where
  | ints (xs : List Int) : ColData
  | floats (xs : List (Option ℚ)) : ColData
  | strs (xs : List (Option String)) : ColData
deriving DecidableEq

/-- Number of values stored in a column. -/
def ColData.size : ColData → Nat
  | .ints xs => xs.length
  | .floats xs => xs.length
  | .strs xs => xs.length

/-- The column's values as dtype-tagged cells (row-equality view). -/
def ColData.cells : ColData → List Cell
  | .ints xs => xs.map Cell.i
  | .floats xs => xs.map Cell.f
  | .strs xs => xs.map Cell.s

/-- A named column. -/
structure Col where
  name : String
  data : ColData
deriving DecidableEq

/-- A pandas `DataFrame`: a row index plus named columns.  `pd.read_csv`
produces the default `RangeIndex` `0, 1, …, n-1`. -/
structure Table where
  index : List Nat
  cols : List Col
deriving DecidableEq

/-- Rectangularity: every column stores exactly one value per index label. -/
def Table.wf (t : Table) : Bool :=
  t.cols.all (fun c => c.data.size = t.index.length)

/-- A row, as the list of its cells across the columns. -/
def Row := List Cell
deriving DecidableEq

instance : Inhabited Row := ⟨([] : List Cell)⟩

/-! ### String primitives (modelled on `List Char` by structural recursion) -/

/-- `s.lower()` on a character: the ASCII case mapping used by the column
normalizer (core `Char.toLower`: `A`–`Z` shifts by 32, all else fixed). -/
def pyLowerChar (c : Char) : Char := Char.toLower c

/-- `.replace(" ", "_")` on a character. -/
def spaceToUnderscore (c : Char) : Char := if c = ' ' then '_' else c

/-- `name.lower().replace(" ", "_")`: the column-name transform of
`clean_column_names` (two passes, exactly as in the source). -/
def normName (s : String) : String :=
  ⟨(s.data.map pyLowerChar).map spaceToUnderscore⟩

/-- Line 28 of the source: `"state" if col == "st" else col`. -/
def stRename (s : String) : String := if s = "st" then "state" else s

/-- Split a character list at every occurrence of the separator `sep`
(Python `str.split(sep)` for a one-character separator). -/
def splitOnCharL (sep : Char) : List Char → List (List Char)
  | [] => [[]]
  | c :: cs =>
    match splitOnCharL sep cs, decide (c = sep) with
    | r, true => [] :: r
    | t :: ts, false => (c :: t) :: ts
    | [], false => [[c]]

/-- Python `s.split(sep)` for a one-character separator. -/
def pySplit (sep : Char) (s : String) : List String :=
  (splitOnCharL sep s.data).map (fun l => ⟨l⟩)

/-- Lexicographic (code-point) strict ordering on character lists: Python's
`str <`, used by pandas when sorting `object` values. -/
def lexLt : List Char → List Char → Bool
  | [], [] => false
  | [], _ :: _ => true
  | _ :: _, [] => false
  | a :: as, b :: bs => if a < b then true else if b < a then false else lexLt as bs

/-- Python `str <=` as a Bool. -/
def strLe (a b : String) : Bool := !(lexLt b.data a.data)

/-- Is this character an ASCII digit? -/
def isDigitChar (c : Char) : Bool := 48 ≤ c.toNat && c.toNat ≤ 57

/-- Numeric value of a digit list read in base 10. -/
def digitsToNat : List Char → Nat → Nat
  | [], acc => acc
  | c :: cs, acc => digitsToNat cs (acc * 10 + (c.toNat - 48))

/-- Model of the element conversion performed by
`pd.to_numeric(..., errors="coerce")` on a string: an optional sign followed
by decimal digits with an optional fractional part (`"5"`, `"00"`, `"251.2"`,
`"-3."`, `".5"`).  Anything else (including the empty string and `"nan"`)
fails, which `errors="coerce"` turns into a missing marker.  Exponent
notation and infinities are outside the modelled fragment. -/
def parseNum (s : String) : Option ℚ :=
  let (sign, body) :=
    match s.data with
    | '-' :: rest => ((-1 : Int), rest)
    | '+' :: rest => ((1 : Int), rest)
    | l => ((1 : Int), l)
  match splitOnCharL '.' body with
  | [intPart] =>
    if intPart ≠ [] && intPart.all isDigitChar then
      some (mkRat (sign * (digitsToNat intPart 0 : Int)) 1)
    else none
  | [intPart, fracPart] =>
    if (intPart ≠ [] || fracPart ≠ []) && intPart.all isDigitChar
        && fracPart.all isDigitChar then
      some (mkRat
        (sign * ((digitsToNat intPart 0 : Int) * (10 ^ fracPart.length : Nat)
          + (digitsToNat fracPart 0 : Int)))
        (10 ^ fracPart.length))
    else none
  | _ => none

/-- Insert into a list sorted by `le`. -/
def insertLe (le : α → α → Bool) (a : α) : List α → List α
  | [] => [a]
  | b :: bs => if le a b then a :: b :: bs else b :: insertLe le a bs

/-- Insertion sort by `le` (model of pandas' sort, used by `median`/`mode`). -/
def sortLe (le : α → α → Bool) : List α → List α
  | [] => []
  | a :: as => insertLe le a (sortLe le as)

/-! ### Pipeline steps (`src/cleaning.py`)

Each Python function starts with `df = df.copy()` and then rebinds `df`
through a fixed sequence of column assignments; each assignment is modelled
as one `Table → Table` (or `Table → Except PyErr Table`) step and the
function as their composition.  The statement-level heap semantics further
below replays the same steps against an explicit heap to express the
non-mutation contract. -/

/-- `df.columns = df.columns.str.lower().str.replace(" ", "_")`
(first assignment of `clean_column_names`). -/
def lowerColsStep (df : Table) : Table :=
  { df with cols := df.cols.map (fun c => { c with name := normName c.name }) }

/-- `df.columns = ["state" if col == "st" else col for col in df.columns]`
(second assignment of `clean_column_names`). -/
def stRenameStep (df : Table) : Table :=
  { df with cols := df.cols.map (fun c => { c with name := stRename c.name }) }

/-- `clean_column_names`: standardize column names (lowercase, spaces to
underscores, then the exact-match rename `st` → `state`). -/
def clean_column_names (df : Table) : Table :=
  stRenameStep (lowerColsStep df)

/-- `Series.replace(mapping)`: replace exact values by the mapping.  The
mappings used by the source have string keys, so `int64`/`float64` columns
are unaffected; missing markers are never replaced. -/
def seriesReplace (m : List (String × String)) : ColData → ColData
  | .strs xs => .strs (xs.map (fun v => v.map (fun s => (List.lookup s m).getD s)))
  | d => d

/-- The `gender` mapping of `clean_invalid_values`. -/
def genderMap : List (String × String) :=
  [("Male", "M"), ("female", "F"), ("Femal", "F")]

/-- The `state` mapping of `clean_invalid_values`. -/
def stateMap : List (String × String) :=
  [("AZ", "Arizona"), ("Cali", "California"), ("WA", "Washington")]

/-- The `education` mapping of `clean_invalid_values`. -/
def educationMap : List (String × String) := [("Bachelors", "Bachelor")]

/-- The `vehicle_class` mapping of `clean_invalid_values`. -/
def vehicleClassMap : List (String × String) :=
  [("Sports Car", "Luxury"), ("Luxury SUV", "Luxury"), ("Luxury Car", "Luxury")]

/-- `if "gender" in df.columns: df["gender"] = df["gender"].replace({...})`. -/
def genderStep (df : Table) : Table :=
  { df with cols := df.cols.map (fun c =>
      if c.name = "gender" then { c with data := seriesReplace genderMap c.data } else c) }

/-- The `state` replacement block of `clean_invalid_values`. -/
def stateStep (df : Table) : Table :=
  { df with cols := df.cols.map (fun c =>
      if c.name = "state" then { c with data := seriesReplace stateMap c.data } else c) }

/-- The `education` replacement block of `clean_invalid_values`. -/
def educationStep (df : Table) : Table :=
  { df with cols := df.cols.map (fun c =>
      if c.name = "education" then { c with data := seriesReplace educationMap c.data } else c) }

/-- The `vehicle_class` replacement block of `clean_invalid_values`. -/
def vehicleClassStep (df : Table) : Table :=
  { df with cols := df.cols.map (fun c =>
      if c.name = "vehicle_class" then { c with data := seriesReplace vehicleClassMap c.data } else c) }

/-- `"abc%".replace("%", "")`: drop every `%` character. -/
def stripPercent (s : String) : String := ⟨s.data.filter (fun c => !(c = '%'))⟩

/-- `Series.str.replace("%", "", regex=False)`: only defined on an `object`
column; on an `int64`/`float64` column the `.str` accessor raises
`AttributeError`.  Missing markers stay missing. -/
def strAccessorStripPercent : ColData → Except PyErr ColData
  | .strs xs => .ok (.strs (xs.map (fun v => v.map stripPercent)))
  | _ => .error .attributeError

/-- Apply a fallible per-column operation to every column in order, aborting
at the first raised exception (the semantics of a Python `for` loop over the
columns). -/
def mapME (f : Col → Except PyErr Col) : List Col → Except PyErr (List Col)
  | [] => .ok []
  | c :: cs =>
    match f c with
    | .ok c' =>
      match mapME f cs with
      | .ok cs' => .ok (c' :: cs')
      | .error e => .error e
    | .error e => .error e

/-- The `customer_lifetime_value` `%`-stripping block of
`clean_invalid_values` (the only fallible block). -/
def clvStripStep (df : Table) : Except PyErr Table :=
  match mapME (fun c =>
      if c.name = "customer_lifetime_value" then
        match strAccessorStripPercent c.data with
        | .ok d => .ok { c with data := d }
        | .error e => .error e
      else .ok c) df.cols with
  | .ok cols => .ok { df with cols := cols }
  | .error e => .error e

/-- `clean_invalid_values`: normalize gender/state/education values, strip
`%` from `customer_lifetime_value`, merge `vehicle_class` categories. -/
def clean_invalid_values (df : Table) : Except PyErr Table :=
  match clvStripStep (educationStep (stateStep (genderStep df))) with
  | .ok t => .ok (vehicleClassStep t)
  | .error e => .error e

/-- Pack the element results of `pd.to_numeric(..., errors="coerce")` into a
column: if every element parsed and is integral the result dtype is `int64`,
otherwise `float64`. -/
def toNumericCol (xs : List (Option ℚ)) : ColData :=
  if xs.all (fun o => match o with | some q => q.den = 1 | none => false) then
    .ints (xs.map (fun o => (o.getD 0).num))
  else .floats xs

/-- `pd.to_numeric(series, errors="coerce")`: parse an `object` column
element-wise (failures and missing markers become missing markers); numeric
columns pass through unchanged. -/
def seriesToNumeric : ColData → ColData
  | .strs xs => toNumericCol (xs.map (fun v => v.bind parseNum))
  | d => d

/-- `df["customer_lifetime_value"] = pd.to_numeric(..., errors="coerce")`. -/
def clvNumericStep (df : Table) : Table :=
  { df with cols := df.cols.map (fun c =>
      if c.name = "customer_lifetime_value" then { c with data := seriesToNumeric c.data } else c) }

/-- Python `str()` of an integral float (`5.0`, `-3.0`, …).  Non-integral
floats are outside the fragment exercised by the pipeline (the split column
is text when loaded from CSV); they are rendered as `num/den`. -/
def floatToStr (q : ℚ) : String :=
  if q.den = 1 then toString q.num ++ ".0"
  else toString q.num ++ "/" ++ toString q.den

/-- `series.astype(str)`: every cell becomes its `str()` text; a missing
marker prints as `"nan"`. -/
def astypeStrCol : ColData → List String
  | .ints xs => xs.map (fun z => toString z)
  | .floats xs => xs.map (fun o => match o with | some q => floatToStr q | none => "nan")
  | .strs xs => xs.map (fun v => v.getD "nan")

/-- One cell of `.astype(str).str.split("/").str[1]`: element 1 of the split
if it exists, otherwise a missing marker. -/
def complaintsSplitCell (s : String) : Option String := (pySplit '/' s).get? 1

/-- `df["number_of_open_complaints"] = df[...].astype(str).str.split("/").str[1]`. -/
def complaintsSplitStep (df : Table) : Table :=
  { df with cols := df.cols.map (fun c =>
      if c.name = "number_of_open_complaints" then
        { c with data := .strs ((astypeStrCol c.data).map complaintsSplitCell) }
      else c) }

/-- `df["number_of_open_complaints"] = pd.to_numeric(..., errors="coerce")`. -/
def complaintsNumericStep (df : Table) : Table :=
  { df with cols := df.cols.map (fun c =>
      if c.name = "number_of_open_complaints" then { c with data := seriesToNumeric c.data } else c) }

/-- `format_data_types`: make `customer_lifetime_value` numeric and extract
the middle token of `number_of_open_complaints`.  Total: `errors="coerce"`
never raises. -/
def format_data_types (df : Table) : Table :=
  complaintsNumericStep (complaintsSplitStep (clvNumericStep df))

/-- Exact mean of two rationals, built with integer arithmetic. -/
def qAvg (a b : ℚ) : ℚ :=
  mkRat (a.num * (b.den : Int) + b.num * (a.den : Int)) (2 * (a.den * b.den))

/-- `Series.median()` over the non-missing values: sort, take the middle
element (odd count) or the mean of the two middle elements (even count);
the median of no values is itself a missing marker (`NaN`). -/
def median (l : List ℚ) : Option ℚ :=
  match sortLe (fun a b => !(Rat.blt b a)) l with
  | [] => none
  | s => some (if s.length % 2 = 1 then s.getD (s.length / 2) 0
      else qAvg (s.getD (s.length / 2 - 1) 0) (s.getD (s.length / 2) 0))

/-- `Series.mode(dropna=True)[0]`: pandas returns the most frequent values
sorted ascending, so `[0]` is the least value attaining the maximal count;
on an empty value set `mode` is empty and there is no element `[0]`. -/
def modeFirst (l : List String) : Option String :=
  let maxc := (l.map (fun x => l.count x)).foldr max 0
  (sortLe strLe l).find? (fun x => l.count x = maxc)

/-- Numeric half of `handle_nulls`: `int64` columns never hold a missing
marker, so only `float64` columns with a missing value are filled, with
`fillna(median())` (a no-op when the median itself is `NaN`). -/
def fillNumCol (c : Col) : Col :=
  match c.data with
  | .floats xs =>
    if xs.any (fun v => v.isNone) then
      match median (xs.filterMap id) with
      | some m => { c with data := .floats (xs.map (fun v => some (v.getD m))) }
      | none => c
    else c
  | _ => c

/-- Categorical half of `handle_nulls`: `object` columns with a missing
value are filled with `mode(dropna=True)[0]`, which raises `KeyError` when
the mode result is empty. -/
def fillCatCol (c : Col) : Except PyErr Col :=
  match c.data with
  | .strs xs =>
    if xs.any (fun v => v.isNone) then
      match modeFirst (xs.filterMap id) with
      | some m => .ok { c with data := .strs (xs.map (fun v => some (v.getD m))) }
      | none => .error .keyError
    else .ok c
  | _ => .ok c

/-- The numeric `for` loop of `handle_nulls` as one table update. -/
def fillNumPass (df : Table) : Table := { df with cols := df.cols.map fillNumCol }

/-- The categorical `for` loop of `handle_nulls` as one table update. -/
def fillCatPass (df : Table) : Except PyErr Table :=
  match mapME fillCatCol df.cols with
  | .ok cols => .ok { df with cols := cols }
  | .error e => .error e

/-- `handle_nulls`: fill numeric columns with their median, categorical
columns with their mode. -/
def handle_nulls (df : Table) : Except PyErr Table := fillCatPass (fillNumPass df)

/-- Round half to even (the behavior of `Series.round(0)`, i.e. IEEE-754 /
numpy rounding), computed on exact rationals with integer arithmetic:
compare twice the fractional part against 1. -/
def roundHalfEven (q : ℚ) : Int :=
  let fl := q.floor
  let t := 2 * (q.num - fl * (q.den : Int))
  if t < (q.den : Int) then fl
  else if (q.den : Int) < t then fl + 1
  else if fl % 2 = 0 then fl else fl + 1

/-- `df[col] = df[col].round(0).astype(int)` on one column: identity on
`int64`; on `float64` round half-to-even then cast, raising `ValueError`
when a missing marker (non-finite value) is present; `object` columns are
not selected by the loop. -/
def convCol (c : Col) : Except PyErr Col :=
  match c.data with
  | .ints _ => .ok c
  | .floats xs =>
    if xs.all (fun v => v.isSome) then
      .ok { c with data := .ints (xs.map (fun v => roundHalfEven (v.getD 0))) }
    else .error .valueError
  | .strs _ => .ok c

/-- The `for` loop of `convert_numeric_to_int` as one table update. -/
def convPass (df : Table) : Except PyErr Table :=
  match mapME convCol df.cols with
  | .ok cols => .ok { df with cols := cols }
  | .error e => .error e

/-- `convert_numeric_to_int`: convert numeric columns to integers. -/
def convert_numeric_to_int (df : Table) : Except PyErr Table := convPass df

/-- Read row `i` for each `i < n` from the column cell lists (transpose). -/
def trN : Nat → List (List Cell) → List Row
  | 0, _ => []
  | n + 1, cols => (cols.map (fun c => c.headD default)) :: trN n (cols.map List.tail)

/-- The rows of a table, in order. -/
def Table.rows (t : Table) : List Row :=
  trN t.index.length (t.cols.map (fun c => c.data.cells))

/-- Keep the elements whose mask entry is `true` (boolean row selection). -/
def maskFilter : List Bool → List α → List α
  | true :: m, x :: xs => x :: maskFilter m xs
  | false :: m, _ :: xs => maskFilter m xs
  | _, _ => []

/-- `~df.duplicated(keep="first")` as a mask: a row is kept iff its value
has not been seen earlier (pandas tracks seen row values in a hash table). -/
def maskFirstGo [DecidableEq α] (seen : List α) : List α → List Bool
  | [] => []
  | r :: rs =>
    if r ∈ seen then false :: maskFirstGo seen rs
    else true :: maskFirstGo (r :: seen) rs

/-- The keep-mask for `drop_duplicates`: `keep="last"` keeps the occurrences
that are first when scanning from the end. -/
def keepMask (rows : List Row) (keepLast : Bool) : List Bool :=
  if keepLast then (maskFirstGo [] rows.reverse).reverse else maskFirstGo [] rows

/-- Boolean row selection on one column. -/
def ColData.maskF (m : List Bool) : ColData → ColData
  | .ints xs => .ints (maskFilter m xs)
  | .floats xs => .floats (maskFilter m xs)
  | .strs xs => .strs (maskFilter m xs)

/-- `df.drop_duplicates(keep=keep)`: raises `ValueError` unless `keep` is
`"first"` or `"last"` (the parameter is annotated `str`, so the pandas
alternative `keep=False` is not expressible); otherwise drops every row
whose full value equals a kept earlier (resp. later) row, keeping the
original index labels of the survivors. -/
def dropDupStep (keep : String) (df : Table) : Except PyErr Table :=
  if keep = "first" ∨ keep = "last" then
    let m := keepMask df.rows (keep == "last")
    .ok { index := maskFilter m df.index,
          cols := df.cols.map (fun c => { c with data := c.data.maskF m }) }
  else .error .valueError

/-- `df.reset_index(drop=True)`: dense 0-based positions. -/
def resetIndexStep (df : Table) : Table :=
  { df with index := List.range df.index.length }

/-- `handle_duplicates`: drop duplicate rows and reset the index. -/
def handle_duplicates (df : Table) (keep : String) : Except PyErr Table :=
  match dropDupStep keep df with
  | .ok d => .ok (resetIndexStep d)
  | .error e => .error e

/-! ### Driver -/

/-- A Python value passed where a CSV source is expected: either a path
string, or (as in the driver's buggy call) the imported `csv` module. -/
inductive PyVal where
  | strv (s : String) : PyVal
  | module (nm : String) : PyVal

/-- The file system visible to `pd.read_csv`, as path ↦ parsed table. -/
def ReadEnv := String → Option Table

/-- `pd.read_csv`: parses the file at a path (raising `FileNotFoundError`
when absent); on a non-path argument such as a module object it raises
`ValueError` (invalid file path or buffer object type). -/
def read_csv (env : ReadEnv) : PyVal → Except PyErr Table
  | .strv p =>
    match env p with
    | some t => .ok t
    | none => .error .fileNotFoundError
  | .module _ => .error .valueError

/-- `load_data`: load dataset from a CSV source. -/
def load_data (env : ReadEnv) (csvArg : PyVal) : Except PyErr Table :=
  read_csv env csvArg

/-- `save_cleaned_data`: record of the write `df.to_csv(output_path)`. -/
def save_cleaned_data (df : Table) (output_path : String) : String × Table :=
  (output_path, df)

/-- The driver `main(url, output_path, keep_duplicates)`.  Line 167 of the
source reads `df = load_data(csv)`: the argument is the imported `csv`
module, not the `url` parameter, which is never used. -/
def main (env : ReadEnv) (url : String) (output_path : String)
    (keep_duplicates : String) : Except PyErr (Table × (String × Table)) := do
  let df ← load_data env (PyVal.module "csv")
  let df := clean_column_names df
  let df ← clean_invalid_values df
  let df := format_data_types df
  let df ← handle_nulls df
  let df ← convert_numeric_to_int df
  let df ← handle_duplicates df keep_duplicates
  pure (df, save_cleaned_data df output_path)

/-! ### Statement-level heap semantics

Python passes the `DataFrame` by reference.  To express the non-mutation
contract, each function body is replayed as a statement list against an
explicit heap of tables: `copy` allocates a fresh cell holding a copy of
the table the local variable points to and repoints the variable at it
(`df = df.copy()`); `upd f` assigns through the local variable in place
(`df[...] = ...` / `df.columns = ...`). -/

/-- One statement of a modelled function body. -/
inductive Stmt where
  | copy : Stmt
  | upd (f : Table → Except PyErr Table) : Stmt

instance : Inhabited Table := ⟨⟨[], []⟩⟩

/-- Run a body on a heap, `a` being the address the local `df` points to. -/
def exec : List Stmt → List Table → Nat → Except PyErr (List Table × Nat)
  | [], h, a => .ok (h, a)
  | .copy :: ss, h, a => exec ss (h ++ [h.getD a default]) h.length
  | .upd f :: ss, h, a =>
    match f (h.getD a default) with
    | .ok t => exec ss (h.set a t) a
    | .error e => .error e

/-- Sequential composition of update steps on a plain table value. -/
def runUpds : List (Table → Except PyErr Table) → Table → Except PyErr Table
  | [], t => .ok t
  | f :: fs, t =>
    match f t with
    | .ok r => runUpds fs r
    | .error e => .error e

/-- The heap outcome of a copy-first body: the original heap is preserved
verbatim and the result lives in a fresh cell. -/
def execResult (h : List Table) : Except PyErr Table → Except PyErr (List Table × Nat)
  | .ok t => .ok (h ++ [t], h.length)
  | .error e => .error e

/-- Body of `clean_column_names` (lines 20–28). -/
def bodyCleanColumnNames : List Stmt :=
  [.copy, .upd (fun t => .ok (lowerColsStep t)), .upd (fun t => .ok (stRenameStep t))]

/-- Body of `clean_invalid_values` (lines 41–71). -/
def bodyCleanInvalidValues : List Stmt :=
  [.copy, .upd (fun t => .ok (genderStep t)), .upd (fun t => .ok (stateStep t)),
   .upd (fun t => .ok (educationStep t)), .upd clvStripStep,
   .upd (fun t => .ok (vehicleClassStep t))]

/-- Body of `format_data_types` (lines 82–95). -/
def bodyFormatDataTypes : List Stmt :=
  [.copy, .upd (fun t => .ok (clvNumericStep t)),
   .upd (fun t => .ok (complaintsSplitStep t)),
   .upd (fun t => .ok (complaintsNumericStep t))]

/-- Body of `handle_nulls` (lines 106–118). -/
def bodyHandleNulls : List Stmt :=
  [.copy, .upd (fun t => .ok (fillNumPass t)), .upd fillCatPass]

/-- Body of `convert_numeric_to_int` (lines 127–132). -/
def bodyConvertNumericToInt : List Stmt := [.copy, .upd convPass]

/-- Body of `handle_duplicates` (lines 141–142). -/
def bodyHandleDuplicates (keep : String) : List Stmt :=
  [.copy, .upd (dropDupStep keep), .upd (fun t => .ok (resetIndexStep t))]

/-! ### Specification-side definitions

These follow the wording of the specification (not the source) and are used
only in theorem statements, to be compared against the source model. -/

instance : Inhabited Col := ⟨⟨"", ColData.ints []⟩⟩

/-- Keep the first occurrence of each group of equal elements, preserving
relative order (spec wording for `keep="first"`). -/
def keepFirstOcc [DecidableEq α] : List α → List α
  | [] => []
  | x :: xs => x :: keepFirstOcc (xs.filter (fun y => y ≠ x))
termination_by l => l.length
decreasing_by simp only [List.length_cons]; exact Nat.lt_succ_of_le (List.length_filter_le _ _)

/-- Keep the last occurrence of each group of equal elements, preserving
relative order (spec wording for `keep="last"`). -/
def keepLastOcc [DecidableEq α] (l : List α) : List α :=
  (keepFirstOcc l.reverse).reverse

/-- Does any column of the table contain a missing marker? -/
def Table.hasMissing (t : Table) : Bool :=
  t.cols.any (fun c =>
    match c.data with
    | .ints _ => false
    | .floats xs => xs.any (fun v => v.isNone)
    | .strs xs => xs.any (fun v => v.isNone))

/-- Spec-side relation between a column and its `handle_nulls` output:
values already present are kept; a numeric column with at least one
non-missing and one missing value has its missing values replaced by the
median of its non-missing values and ends with no missing value; a numeric
column that is entirely missing is returned unchanged; a categorical column
ends with no missing value, missing values replaced by the column's mode. -/
def colFilled (c c' : Col) : Prop :=
  c'.name = c.name ∧
  match c.data, c'.data with
  | .ints xs, .ints ys => ys = xs
  | .floats xs, .floats ys =>
    (xs.any (fun v => v.isNone) = false → ys = xs) ∧
    (xs.all (fun v => v.isNone) = true → ys = xs) ∧
    (xs.any (fun v => v.isNone) = true → xs.any (fun v => v.isSome) = true →
      ys.all (fun v => v.isSome) = true ∧
      ∃ m, median (xs.filterMap id) = some m ∧
        ys = xs.map (fun v => some (v.getD m)))
  | .strs xs, .strs ys =>
    ys.all (fun v => v.isSome) = true ∧
    (xs.any (fun v => v.isNone) = true →
      ∃ m, modeFirst (xs.filterMap id) = some m ∧
        ys = xs.map (fun v => some (v.getD m))) ∧
    (xs.any (fun v => v.isNone) = false → ys = xs)
  | _, _ => False

/-- Spec-side relation between a column and its `convert_numeric_to_int`
output: integer columns pass through, every float column (all of whose
values are then non-missing) becomes the integer column of its values
rounded half-to-even, text columns pass through. -/
def roundedCol (c c' : Col) : Prop :=
  c'.name = c.name ∧
  match c.data, c'.data with
  | .ints xs, .ints ys => ys = xs
  | .floats xs, .ints ys =>
    xs.all (fun v => v.isSome) = true ∧
    ys = xs.map (fun v => roundHalfEven (v.getD 0))
  | .strs xs, .strs ys => ys = xs
  | _, _ => False

/-- The numeric view of a column's cells: available for `int64` (integral
rationals) and `float64` columns, not for `object` columns. -/
def ColData.numCells : ColData → Option (List (Option ℚ))
  | .ints xs => some (xs.map (fun z => some (mkRat z 1)))
  | .floats xs => some xs
  | .strs _ => none

/-- Spec-side per-cell map for `number_of_open_complaints` (claim C6's
wording): a cell whose text splits on `/` into at least two parts becomes
the parse of the middle token (index 1), anything else a missing marker;
a missing cell's text is `"nan"`. -/
def complaintsCellSpec (v : Option String) : Option ℚ :=
  let parts := pySplit '/' (v.getD "nan")
  if 2 ≤ parts.length then parseNum (parts.getD 1 "") else none

/-! ### Concrete tables used as witnesses and counterexamples -/

/-- A table whose `customer_lifetime_value` column is numeric (`float64`). -/
def clvNumericTable : Table :=
  ⟨[0], [⟨"customer_lifetime_value", .floats [some (mkRat 1 1)]⟩]⟩

/-- A table with a categorical column whose values are all missing. -/
def allMissingCatTable : Table := ⟨[0, 1], [⟨"gender", .strs [none, none]⟩]⟩

/-- A table with a numeric column whose values are all missing. -/
def allMissingNumTable : Table := ⟨[0], [⟨"income", .floats [none]⟩]⟩

/-- A table with a column named `ST` (normalizes to `st`). -/
def stTable : Table := ⟨[0], [⟨"ST", .strs [some ("x")]⟩]⟩

/-- A table with a column named `status`. -/
def statusTable : Table := ⟨[0], [⟨"status", .strs [some ("active")]⟩]⟩

/-! ### Lemmas about the column-name normalization -/

theorem charToNat_ofNat {n : Nat} (h : n < 55296) : (Char.ofNat n).toNat = n := by
  rw [Char.ofNat, dif_pos (Or.inl h)]
  rfl

theorem pyLowerChar_of_upper {c : Char} (h : 65 ≤ c.toNat ∧ c.toNat ≤ 90) :
    pyLowerChar c = Char.ofNat (c.toNat + 32) := by
  unfold pyLowerChar Char.toLower
  exact if_pos ⟨h.1, h.2⟩

theorem pyLowerChar_of_not_upper {c : Char} (h : ¬(65 ≤ c.toNat ∧ c.toNat ≤ 90)) :
    pyLowerChar c = c := by
  unfold pyLowerChar Char.toLower
  exact if_neg (fun hc => h ⟨hc.1, hc.2⟩)

theorem toNat_pyLowerChar_of_upper {c : Char} (h : 65 ≤ c.toNat ∧ c.toNat ≤ 90) :
    (pyLowerChar c).toNat = c.toNat + 32 := by
  rw [pyLowerChar_of_upper h]
  exact charToNat_ofNat (by omega)

theorem pyLowerChar_idem (c : Char) : pyLowerChar (pyLowerChar c) = pyLowerChar c := by
  by_cases h : 65 ≤ c.toNat ∧ c.toNat ≤ 90
  · apply pyLowerChar_of_not_upper
    rw [toNat_pyLowerChar_of_upper h]
    omega
  · rw [pyLowerChar_of_not_upper h, pyLowerChar_of_not_upper h]

theorem normChar_idem (c : Char) :
    spaceToUnderscore (pyLowerChar (spaceToUnderscore (pyLowerChar c))) =
      spaceToUnderscore (pyLowerChar c) := by
  by_cases h : 65 ≤ c.toNat ∧ c.toNat ≤ 90
  · have ht : (pyLowerChar c).toNat = c.toNat + 32 := toNat_pyLowerChar_of_upper h
    have hsp : spaceToUnderscore (pyLowerChar c) = pyLowerChar c := by
      unfold spaceToUnderscore
      rw [if_neg]
      intro he
      have h32 : (pyLowerChar c).toNat = 32 := by rw [he]; rfl
      omega
    rw [hsp, pyLowerChar_idem, hsp]
  · have hpl : pyLowerChar c = c := pyLowerChar_of_not_upper h
    rw [hpl]
    by_cases hc : c = ' '
    · subst hc; decide
    · have h1 : spaceToUnderscore c = c := by unfold spaceToUnderscore; rw [if_neg hc]
      rw [h1, hpl, h1]

theorem normName_idem (s : String) : normName (normName s) = normName s := by
  unfold normName
  apply congrArg String.mk
  show (((s.data.map pyLowerChar).map spaceToUnderscore).map pyLowerChar).map
      spaceToUnderscore = (s.data.map pyLowerChar).map spaceToUnderscore
  simp only [List.map_map]
  apply List.map_congr_left
  intro c _
  exact normChar_idem c

theorem cleanName_idem (n : String) :
    stRename (normName (stRename (normName n))) = stRename (normName n) := by
  by_cases h : normName n = "st"
  · have h1 : stRename (normName n) = "state" := by simp [stRename, h]
    rw [h1]
    decide
  · have h1 : stRename (normName n) = normName n := by simp [stRename, h]
    rw [h1, normName_idem]
    exact h1

/-! ### Claim theorems -/

/-- C1 (refuted by the code): the driver never loads from the supplied input
path.  Line 167 reads `df = load_data(csv)`, passing the imported `csv`
module — not the `url` parameter, which is never used — so `pd.read_csv`
raises `ValueError` for every file system, input path, output path and keep
policy, and no pipeline step ever runs.  This contradicts the driver's own
docstring (`1) load`) and the `url: str` parameter it advertises. -/
theorem C1_main_never_loads_from_url (env : ReadEnv) (url output keep : String) :
    main env url output keep = Except.error PyErr.valueError := rfl

/-- C9: `clean_invalid_values` is not total: on a well-formed table whose
`customer_lifetime_value` column is numeric (`float64`), the `.str`
accessor used for `%`-stripping raises `AttributeError`. -/
theorem C9_clv_numeric_raises :
    clvNumericTable.wf = true ∧
    clean_invalid_values clvNumericTable = Except.error PyErr.attributeError := by
  decide

/-- C10: on a well-formed table with a categorical (`object`) column whose
values are all missing, `handle_nulls` raises (`mode(dropna=True)` is empty,
so the positional lookup `[0]` fails) instead of returning a table. -/
theorem C10_all_missing_mode_raises :
    allMissingCatTable.wf = true ∧
    handle_nulls allMissingCatTable = Except.error PyErr.keyError := by
  decide

/-- C7: the column normalizer is idempotent — applying `clean_column_names`
twice yields the same table as applying it once (lowercasing and
space-to-underscore replacement are idempotent on characters, and the name
produced by the `st` → `state` special case is itself a fixed point). -/
theorem C7_clean_column_names_idempotent (t : Table) :
    clean_column_names (clean_column_names t) = clean_column_names t := by
  unfold clean_column_names stRenameStep lowerColsStep
  simp only [List.map_map]
  apply congrArg (Table.mk t.index)
  apply List.map_congr_left
  intro c _
  exact congrArg (fun nm => Col.mk nm c.data) (cleanName_idem c.name)

/-- C4: `clean_column_names` renames a column to `state` exactly when its
name, after lowercasing and space-to-underscore replacement, is the exact
string `st`; every other column keeps its normalized name unchanged.  In
particular a column named `status` stays `status`, which does not even
contain `"state"` as a substring. -/
theorem C4_st_rename_exact_match (t : Table) :
    List.Forall₂ (fun c c' : Col =>
        c'.data = c.data ∧
        (normName c.name = "st" → c'.name = "state") ∧
        (normName c.name ≠ "st" → c'.name = normName c.name))
      t.cols (clean_column_names t).cols
    ∧ clean_column_names statusTable = statusTable
    ∧ ¬ "state".data <:+: "status".data := by
  refine ⟨?_, by decide, by decide⟩
  unfold clean_column_names stRenameStep lowerColsStep
  simp only [List.map_map]
  rw [List.forall₂_map_right_iff, List.forall₂_same]
  intro c _
  refine ⟨rfl, fun h => by simp [stRename, h], fun h => by simp [stRename, h]⟩

/-- Witness for C4: on the concrete table with single column `ST`, the
theorem yields the final name `state`. -/
theorem C4_witness : ((clean_column_names stTable).cols.getD 0 default).name = "state" := by
  have h := (List.forall₂_cons.mp (C4_st_rename_exact_match stTable).1).1
  exact h.2.1 (by decide)

theorem mapME_ok_forall₂ {f : Col → Except PyErr Col} :
    ∀ {l l' : List Col}, mapME f l = .ok l' →
      List.Forall₂ (fun c c' => f c = .ok c') l l'
  | [], l', h => by
    have he : ([] : List Col) = l' := Except.ok.inj h
    rw [← he]
    exact List.Forall₂.nil
  | c :: cs, l', h => by
    unfold mapME at h
    cases hf : f c with
    | error e => rw [hf] at h; exact Except.noConfusion h
    | ok c' =>
      rw [hf] at h
      cases hm : mapME f cs with
      | error e => rw [hm] at h; exact Except.noConfusion h
      | ok cs' =>
        rw [hm] at h
        rw [← Except.ok.inj h]
        exact List.Forall₂.cons hf (mapME_ok_forall₂ hm)

/-- The tables witnessing C5. -/
def roundTable : Table := ⟨[0, 1], [⟨"x", .floats [some (mkRat 5 2), some (mkRat 7 2)]⟩]⟩

/-- Output of `convert_numeric_to_int` on `roundTable`. -/
def roundTableOut : Table := ⟨[0, 1], [⟨"x", .ints [2, 4]⟩]⟩

/-- C5: whenever `convert_numeric_to_int` returns a table, every numeric
column has been rounded half-to-even and cast to integer type (integer
columns unchanged, float columns become integer columns of their rounded
values, text columns untouched); in particular the value `2.5` rounds to
`2` and `3.5` rounds to `4`. -/
theorem C5_round_half_even_then_cast (t t' : Table)
    (h : convert_numeric_to_int t = .ok t') :
    t'.index = t.index ∧ List.Forall₂ roundedCol t.cols t'.cols
    ∧ roundHalfEven (mkRat 5 2) = 2 ∧ roundHalfEven (mkRat 7 2) = 4 := by
  unfold convert_numeric_to_int convPass at h
  cases hm : mapME convCol t.cols with
  | error e => rw [hm] at h; exact Except.noConfusion h
  | ok cols =>
    rw [hm] at h
    rw [← Except.ok.inj h]
    refine ⟨rfl, ?_, by decide, by decide⟩
    refine List.Forall₂.imp ?_ (mapME_ok_forall₂ hm)
    intro a b hab
    obtain ⟨nm, d⟩ := a
    unfold roundedCol
    cases d with
    | ints xs =>
      simp only [convCol] at hab
      rw [← Except.ok.inj hab]
      exact ⟨rfl, rfl⟩
    | floats xs =>
      simp only [convCol] at hab
      by_cases hall : xs.all (fun v => v.isSome) = true
      · rw [if_pos hall] at hab
        rw [← Except.ok.inj hab]
        exact ⟨rfl, hall, rfl⟩
      · rw [if_neg hall] at hab
        exact Except.noConfusion hab
    | strs xs =>
      simp only [convCol] at hab
      rw [← Except.ok.inj hab]
      exact ⟨rfl, rfl⟩

/-- Witness for C5 at a concrete table holding `2.5` and `3.5`. -/
theorem C5_witness :
    roundTableOut.index = roundTable.index
    ∧ List.Forall₂ roundedCol roundTable.cols roundTableOut.cols
    ∧ roundHalfEven (mkRat 5 2) = 2 ∧ roundHalfEven (mkRat 7 2) = 4 :=
  C5_round_half_even_then_cast roundTable roundTableOut (by decide)

theorem any_isNone_false_all_isSome {α : Type} {xs : List (Option α)}
    (h : xs.any (fun v => v.isNone) = false) : xs.all (fun v => v.isSome) = true := by
  rw [List.all_eq_true]
  intro v hv
  rw [List.any_eq_false] at h
  cases v with
  | none => exact absurd rfl (h none hv)
  | some a => rfl

theorem all_isNone_filterMap_nil {α : Type} {xs : List (Option α)}
    (h : xs.all (fun v => v.isNone) = true) : xs.filterMap id = [] := by
  rw [List.filterMap_eq_nil_iff]
  intro a ha
  have := List.all_eq_true.mp h a ha
  cases a with
  | none => rfl
  | some b => exact Bool.noConfusion this

theorem any_isSome_filterMap_ne_nil {α : Type} {xs : List (Option α)}
    (h : xs.any (fun v => v.isSome) = true) : xs.filterMap id ≠ [] := by
  obtain ⟨v, hv, hs⟩ := List.any_eq_true.mp h
  cases v with
  | none => exact Bool.noConfusion hs
  | some q => exact List.ne_nil_of_mem (List.mem_filterMap.mpr ⟨some q, hv, rfl⟩)

theorem insertLe_ne_nil {α : Type} (le : α → α → Bool) (a : α) (l : List α) :
    insertLe le a l ≠ [] := by
  cases l with
  | nil => simp [insertLe]
  | cons b bs => by_cases h : le a b <;> simp [insertLe, h]

theorem sortLe_eq_nil {α : Type} {le : α → α → Bool} {l : List α}
    (h : sortLe le l = []) : l = [] := by
  cases l with
  | nil => rfl
  | cons a as => exact absurd h (insertLe_ne_nil le a (sortLe le as))

theorem median_eq_none {l : List ℚ} (h : median l = none) : l = [] := by
  unfold median at h
  cases hs : sortLe (fun a b => !(Rat.blt b a)) l with
  | nil => exact sortLe_eq_nil hs
  | cons x xs => rw [hs] at h; exact Option.noConfusion h

/-- Per-column behavior of the two `handle_nulls` passes. -/
theorem fill_colFilled {c c' : Col} (h : fillCatCol (fillNumCol c) = .ok c') :
    colFilled c c' := by
  obtain ⟨nm, d⟩ := c
  cases d with
  | ints xs =>
    simp only [fillNumCol, fillCatCol] at h
    rw [← Except.ok.inj h]
    exact ⟨rfl, rfl⟩
  | floats xs =>
    simp only [fillNumCol] at h
    by_cases hany : xs.any (fun v => v.isNone) = true
    · rw [if_pos hany] at h
      cases hmed : median (xs.filterMap id) with
      | none =>
        rw [hmed] at h
        simp only [fillCatCol] at h
        rw [← Except.ok.inj h]
        unfold colFilled
        refine ⟨rfl, fun _ => rfl, fun _ => rfl, fun _ hsome => ?_⟩
        exact absurd (by rw [median_eq_none hmed]) (any_isSome_filterMap_ne_nil hsome)
      | some m =>
        rw [hmed] at h
        simp only [fillCatCol] at h
        rw [← Except.ok.inj h]
        unfold colFilled
        refine ⟨rfl, ?_, ?_, ?_⟩
        · intro h0; rw [h0] at hany; exact Bool.noConfusion hany
        · intro hall
          rw [all_isNone_filterMap_nil hall] at hmed
          exact Option.noConfusion ((rfl : median [] = none).symm.trans hmed)
        · intro _ _
          refine ⟨?_, m, hmed, rfl⟩
          rw [List.all_eq_true]
          intro v hv
          obtain ⟨w, -, hw⟩ := List.mem_map.mp hv
          rw [← hw]
          rfl
    · rw [if_neg hany] at h
      simp only [fillCatCol] at h
      rw [← Except.ok.inj h]
      unfold colFilled
      exact ⟨rfl, fun _ => rfl, fun _ => rfl, fun h1 _ => absurd h1 hany⟩
  | strs xs =>
    simp only [fillNumCol, fillCatCol] at h
    by_cases hany : xs.any (fun v => v.isNone) = true
    · rw [if_pos hany] at h
      cases hmode : modeFirst (xs.filterMap id) with
      | none => rw [hmode] at h; exact Except.noConfusion h
      | some m =>
        rw [hmode] at h
        rw [← Except.ok.inj h]
        unfold colFilled
        refine ⟨rfl, ?_, fun _ => ⟨m, hmode, rfl⟩, ?_⟩
        · rw [List.all_eq_true]
          intro v hv
          obtain ⟨w, -, hw⟩ := List.mem_map.mp hv
          rw [← hw]
          rfl
        · intro h0; rw [h0] at hany; exact Bool.noConfusion hany
    · rw [if_neg hany] at h
      rw [← Except.ok.inj h]
      unfold colFilled
      have hf : xs.any (fun v => v.isNone) = false := by
        cases h0 : xs.any (fun v => v.isNone) with
        | true => exact absurd h0 hany
        | false => rfl
      exact ⟨rfl, any_isNone_false_all_isSome hf, fun h1 => absurd h1 hany, fun _ => rfl⟩

/-- C2 as stated is refuted by the code: `handle_nulls` can succeed and
still return a table containing a missing marker.  On a table whose single
`float64` column is entirely missing, the median of the non-missing values
is itself `NaN`, `fillna(NaN)` is a no-op, and the table is returned
unchanged with its missing value intact. -/
theorem C2_counterexample :
    handle_nulls allMissingNumTable = Except.ok allMissingNumTable
    ∧ allMissingNumTable.hasMissing = true := by
  decide

/-- C2 (amended): whenever `handle_nulls` returns a table, each categorical
column ends with no missing marker (missing values replaced by the column's
mode), and each numeric column with at least one non-missing value ends with
no missing marker (missing values replaced by the median of the non-missing
values); but a numeric column whose values are all missing is returned
unchanged, missing markers included. -/
theorem C2_nulls_filled_amended (t t' : Table) (h : handle_nulls t = .ok t') :
    t'.index = t.index ∧ List.Forall₂ colFilled t.cols t'.cols := by
  unfold handle_nulls fillCatPass at h
  cases hm : mapME fillCatCol (fillNumPass t).cols with
  | error e => rw [hm] at h; exact Except.noConfusion h
  | ok cols =>
    rw [hm] at h
    rw [← Except.ok.inj h]
    refine ⟨rfl, ?_⟩
    have h2 := mapME_ok_forall₂ hm
    rw [show (fillNumPass t).cols = t.cols.map fillNumCol from rfl,
      List.forall₂_map_left_iff] at h2
    exact h2.imp (fun a b hab => fill_colFilled hab)

/-- The table witnessing C2's amended theorem. -/
def nullsTable : Table :=
  ⟨[0, 1, 2], [⟨"gender", .strs [some ("Male"), none, some ("F")]⟩,
    ⟨"income", .floats [some (mkRat 1 1), none, some (mkRat 3 1)]⟩]⟩

/-- Output of `handle_nulls` on `nullsTable`: the missing `gender` takes the
mode `F`, the missing `income` the median `2`. -/
def nullsOutTable : Table :=
  ⟨[0, 1, 2], [⟨"gender", .strs [some ("Male"), some ("F"), some ("F")]⟩,
    ⟨"income", .floats [some (mkRat 1 1), some (mkRat 2 1), some (mkRat 3 1)]⟩]⟩

/-- Witness for C2's amended theorem at a concrete table. -/
theorem C2_witness :
    nullsOutTable.index = nullsTable.index
    ∧ List.Forall₂ colFilled nullsTable.cols nullsOutTable.cols :=
  C2_nulls_filled_amended nullsTable nullsOutTable (by decide)

theorem get?_one_bind (l : List String) (f : String → Option ℚ) :
    (l.get? 1).bind f = if 2 ≤ l.length then f (l.getD 1 "") else none := by
  match l with
  | [] => rfl
  | [a] => rfl
  | a :: b :: bs =>
    have h2 : 2 ≤ (a :: b :: bs).length := by simp only [List.length_cons]; omega
    rw [if_pos h2]
    rfl

theorem numCells_toNumericCol (l : List (Option ℚ)) :
    (toNumericCol l).numCells = some l := by
  unfold toNumericCol
  by_cases hall :
      l.all (fun o => match o with | some q => q.den = 1 | none => false) = true
  · rw [if_pos hall]
    unfold ColData.numCells
    apply congrArg some
    rw [List.map_map]
    conv_rhs => rw [← List.map_id l]
    apply List.map_congr_left
    intro o ho
    have hd := List.all_eq_true.mp hall o ho
    cases o with
    | none => exact Bool.noConfusion hd
    | some q =>
      have hden : q.den = 1 := by
        have : decide (q.den = 1) = true := hd
        exact of_decide_eq_true this
      show some (mkRat q.num 1) = some q
      rw [← hden, Rat.mkRat_self]
  · rw [if_neg hall]
    rfl

/-- C6: for every table and every `number_of_open_complaints` (`object`)
column, `format_data_types` maps each cell independently: a cell whose text
splits on `/` into at least two parts becomes the parse of the middle token
(index 1, missing if not numeric), and a cell that does not split into at
least two parts becomes a missing marker.  In particular `"1/5/00"` yields
`5` and `"no-slash"` yields a missing marker; the function is total, so a
malformed cell never aborts the column. -/
theorem C6_complaints_middle_token (t : Table) (i : Nat) (c : Col)
    (xs : List (Option String))
    (hc : t.cols.get? i = some c)
    (hname : c.name = "number_of_open_complaints")
    (hdata : c.data = .strs xs) :
    (∃ c', (format_data_types t).cols.get? i = some c' ∧
      c'.name = c.name ∧
      c'.data.numCells = some (xs.map complaintsCellSpec))
    ∧ complaintsCellSpec (some ("1/5/00")) = some (mkRat 5 1)
    ∧ complaintsCellSpec (some ("no-slash")) = none
    ∧ complaintsCellSpec none = none := by
  refine ⟨?_, by decide, by decide, by decide⟩
  obtain ⟨nm, d⟩ := c
  cases hname
  cases hdata
  unfold format_data_types complaintsNumericStep complaintsSplitStep clvNumericStep
  simp only [List.map_map]
  rw [List.get?_map, hc]
  refine ⟨_, rfl, rfl, ?_⟩
  show (seriesToNumeric (ColData.strs
      ((astypeStrCol (ColData.strs xs)).map complaintsSplitCell))).numCells = _
  unfold seriesToNumeric astypeStrCol
  rw [numCells_toNumericCol]
  apply congrArg some
  simp only [List.map_map]
  apply List.map_congr_left
  intro v _
  show ((pySplit '/' (v.getD "nan")).get? 1).bind parseNum = complaintsCellSpec v
  unfold complaintsCellSpec
  exact get?_one_bind (pySplit '/' (v.getD "nan")) parseNum

/-- The table witnessing C6. -/
def complaintsTable : Table :=
  ⟨[0, 1], [⟨"number_of_open_complaints", .strs [some ("1/5/00"), some ("no-slash")]⟩]⟩

/-- Witness for C6 at a concrete table. -/
theorem C6_witness :
    ∃ c', (format_data_types complaintsTable).cols.get? 0 = some c' ∧
      c'.name = "number_of_open_complaints" ∧
      c'.data.numCells = some [some (mkRat 5 1), none] := by
  obtain ⟨⟨c', h1, h2, h3⟩, -, -, -⟩ :=
    C6_complaints_middle_token complaintsTable 0
      ⟨"number_of_open_complaints", .strs [some ("1/5/00"), some ("no-slash")]⟩
      [some ("1/5/00"), some ("no-slash")] (by decide) rfl rfl
  rw [show ([some ("1/5/00"), some ("no-slash")].map complaintsCellSpec)
      = [some (mkRat 5 1), none] from by decide] at h3
  exact ⟨c', h1, h2, h3⟩


theorem getD_concat {α : Type} [Inhabited α] (h : List α) (t : α) :
    (h ++ [t]).getD h.length default = t := by
  induction h with
  | nil => rfl
  | cons x xs ih => exact ih

theorem set_concat {α : Type} (h : List α) (t r : α) :
    (h ++ [t]).set h.length r = h ++ [r] := by
  induction h with
  | nil => rfl
  | cons x xs ih => exact congrArg (fun l => x :: l) ih

theorem exec_upds (fs : List (Table → Except PyErr Table)) (h : List Table) (t : Table) :
    exec (fs.map Stmt.upd) (h ++ [t]) h.length = execResult h (runUpds fs t) := by
  induction fs generalizing t with
  | nil => rfl
  | cons f fs ih =>
    show exec (Stmt.upd f :: fs.map Stmt.upd) (h ++ [t]) h.length = _
    unfold exec
    rw [getD_concat]
    unfold runUpds
    cases hf : f t with
    | ok r =>
      show exec (fs.map Stmt.upd) ((h ++ [t]).set h.length r) h.length = _
      rw [set_concat]
      exact ih r
    | error e => rfl

theorem exec_copy_upds (fs : List (Table → Except PyErr Table)) (h : List Table) (a : Nat) :
    exec (Stmt.copy :: fs.map Stmt.upd) h a
      = execResult h (runUpds fs (h.getD a default)) := by
  unfold exec
  exact exec_upds fs h (h.getD a default)

/-- C8: no pipeline step mutates its input table.  Replaying each function
body against an explicit heap, from any heap `h` and any address `a` of the
argument table, the resulting heap extends `h` verbatim — the cells of `h`,
including the argument at `a`, are untouched — and the function result
(when no exception is raised) lives in a freshly allocated cell, because
every body copies first (`df = df.copy()`) and assigns only through the
copy. -/
theorem C8_steps_do_not_mutate (h : List Table) (a : Nat) (keep : String) :
    exec bodyCleanColumnNames h a
      = execResult h (.ok (clean_column_names (h.getD a default)))
    ∧ exec bodyCleanInvalidValues h a
      = execResult h (clean_invalid_values (h.getD a default))
    ∧ exec bodyFormatDataTypes h a
      = execResult h (.ok (format_data_types (h.getD a default)))
    ∧ exec bodyHandleNulls h a
      = execResult h (handle_nulls (h.getD a default))
    ∧ exec bodyConvertNumericToInt h a
      = execResult h (convert_numeric_to_int (h.getD a default))
    ∧ exec (bodyHandleDuplicates keep) h a
      = execResult h (handle_duplicates (h.getD a default) keep) := by
  refine ⟨?_, ?_, ?_, ?_, ?_, ?_⟩
  · exact exec_copy_upds [fun u => .ok (lowerColsStep u), fun u => .ok (stRenameStep u)] h a
  · refine (exec_copy_upds [fun u => .ok (genderStep u), fun u => .ok (stateStep u),
      fun u => .ok (educationStep u), clvStripStep,
      fun u => .ok (vehicleClassStep u)] h a).trans (congrArg (execResult h) ?_)
    unfold clean_invalid_values
    simp only [runUpds]
  · exact exec_copy_upds [fun u => .ok (clvNumericStep u),
      fun u => .ok (complaintsSplitStep u), fun u => .ok (complaintsNumericStep u)] h a
  · refine (exec_copy_upds [fun u => .ok (fillNumPass u), fillCatPass] h a).trans
      (congrArg (execResult h) ?_)
    unfold handle_nulls
    simp only [runUpds]
    cases hx : fillCatPass (fillNumPass (h.getD a default)) <;> rfl
  · refine (exec_copy_upds [convPass] h a).trans (congrArg (execResult h) ?_)
    unfold convert_numeric_to_int
    simp only [runUpds]
    cases hx : convPass (h.getD a default) <;> rfl
  · refine (exec_copy_upds [dropDupStep keep, fun u => .ok (resetIndexStep u)] h a).trans
      (congrArg (execResult h) ?_)
    unfold handle_duplicates
    simp only [runUpds]


/-! ### Lemmas for `handle_duplicates` (claim C3) -/

theorem maskFilter_nil {α : Type} (m : List Bool) : maskFilter m ([] : List α) = [] := by
  cases m with
  | nil => rfl
  | cons b m => cases b <;> rfl

theorem maskFilter_length_eq {α β : Type} (m : List Bool) :
    ∀ (xs : List α) (ys : List β), xs.length = ys.length →
      (maskFilter m xs).length = (maskFilter m ys).length := by
  induction m with
  | nil => intro xs ys h; rfl
  | cons b m ih =>
    intro xs ys h
    cases xs with
    | nil =>
      cases ys with
      | nil => rw [maskFilter_nil, maskFilter_nil]; rfl
      | cons y ys => exact absurd h (by simp)
    | cons x xs =>
      cases ys with
      | nil => exact absurd h (by simp)
      | cons y ys =>
        have h' : xs.length = ys.length := Nat.succ.inj h
        cases b with
        | true => exact congrArg Nat.succ (ih xs ys h')
        | false => exact ih xs ys h'

theorem maskFirstGo_length {α : Type} [DecidableEq α] (seen : List α) (l : List α) :
    (maskFirstGo seen l).length = l.length := by
  induction l generalizing seen with
  | nil => rfl
  | cons r rs ih =>
    unfold maskFirstGo
    by_cases hr : r ∈ seen
    · rw [if_pos hr]
      exact congrArg Nat.succ (ih seen)
    · rw [if_neg hr]
      exact congrArg Nat.succ (ih (r :: seen))

theorem maskFilter_map {α β : Type} (f : α → β) (m : List Bool) :
    ∀ (l : List α), maskFilter m (l.map f) = (maskFilter m l).map f := by
  induction m with
  | nil => intro l; rfl
  | cons b m ih =>
    intro l
    cases l with
    | nil => simp [maskFilter_nil]
    | cons x xs =>
      cases b with
      | true => exact congrArg (fun r => f x :: r) (ih xs)
      | false => exact ih xs

theorem trN_length (n : Nat) (cols : List (List Cell)) : (trN n cols).length = n := by
  induction n generalizing cols with
  | zero => rfl
  | succ k ih => exact congrArg Nat.succ (ih (cols.map List.tail))

theorem trN_maskFilter (m : List Bool) :
    ∀ (ix : List Nat) (cols : List (List Cell)), ix.length = m.length →
      (∀ c ∈ cols, c.length = m.length) →
      trN (maskFilter m ix).length (cols.map (maskFilter m))
        = maskFilter m (trN m.length cols) := by
  induction m with
  | nil => intro ix cols h1 h2; rfl
  | cons b m ih =>
    intro ix cols h1 h2
    cases ix with
    | nil => exact absurd h1 (by simp)
    | cons i ix =>
      have h1' : ix.length = m.length := Nat.succ.inj (by simpa using h1)
      have h2' : ∀ c ∈ cols.map List.tail, c.length = m.length := by
        intro c hc
        obtain ⟨c0, hc0, hct⟩ := List.mem_map.mp hc
        have := h2 c0 hc0
        cases c0 with
        | nil => exact absurd this (by simp)
        | cons hd tl =>
          rw [← hct]
          exact Nat.succ.inj (by simpa using this)
      cases b with
      | true =>
        have hmap : cols.map (maskFilter (true :: m))
            = cols.map (fun c => c.headD default :: maskFilter m c.tail) := by
          apply List.map_congr_left
          intro c hcmem
          have := h2 c hcmem
          cases c with
          | nil => exact absurd this (by simp)
          | cons hd tl => rfl
        have htail : (cols.map (fun c => c.headD default :: maskFilter m c.tail)).map
            List.tail = (cols.map List.tail).map (maskFilter m) := by
          simp only [List.map_map]
          exact List.map_congr_left (fun c _ => rfl)
        have hhead : (cols.map (fun c => c.headD default :: maskFilter m c.tail)).map
            (fun c => c.headD default) = cols.map (fun c => c.headD default) := by
          simp only [List.map_map]
          exact List.map_congr_left (fun c _ => rfl)
        rw [hmap]
        show trN ((maskFilter m ix).length + 1) _ = _
        rw [trN]
        rw [show ((true :: m).length) = m.length + 1 from rfl, trN]
        show _ = (cols.map (fun c => c.headD default)) ::
          maskFilter m (trN m.length (cols.map List.tail))
        rw [htail, hhead]
        exact congrArg (fun rs => (cols.map (fun c => c.headD default)) :: rs)
          (ih ix (cols.map List.tail) h1' h2')
      | false =>
        have hmap : cols.map (maskFilter (false :: m))
            = (cols.map List.tail).map (maskFilter m) := by
          simp only [List.map_map]
          apply List.map_congr_left
          intro c hcmem
          have := h2 c hcmem
          cases c with
          | nil => exact absurd this (by simp)
          | cons hd tl => rfl
        rw [hmap]
        show trN (maskFilter m ix).length _ = _
        rw [show ((false :: m).length) = m.length + 1 from rfl, trN]
        show _ = maskFilter m (trN m.length (cols.map List.tail))
        exact ih ix (cols.map List.tail) h1' h2'


theorem cells_maskF (m : List Bool) (d : ColData) :
    (d.maskF m).cells = maskFilter m d.cells := by
  cases d <;> simp [ColData.maskF, ColData.cells, maskFilter_map]

theorem cells_length (d : ColData) : d.cells.length = d.size := by
  cases d <;> simp [ColData.cells, ColData.size]

theorem rows_length (t : Table) : t.rows.length = t.index.length := by
  unfold Table.rows
  exact trN_length t.index.length (t.cols.map (fun c => c.data.cells))

theorem rows_resetIndex (u : Table) : (resetIndexStep u).rows = u.rows := by
  unfold resetIndexStep Table.rows
  rw [List.length_range]

/-- Boolean row selection commutes with reading the rows of a table. -/
theorem rows_maskTable (t : Table) (m : List Bool) (hwf : t.wf = true)
    (hm : m.length = t.index.length) :
    (Table.mk (maskFilter m t.index)
      (t.cols.map (fun c => { c with data := c.data.maskF m }))).rows
      = maskFilter m t.rows := by
  unfold Table.rows
  show trN (maskFilter m t.index).length
      ((t.cols.map (fun c => { c with data := c.data.maskF m })).map
        (fun c => c.data.cells)) = _
  have hcols : (t.cols.map (fun c => { c with data := c.data.maskF m })).map
      (fun c => c.data.cells)
      = (t.cols.map (fun c => c.data.cells)).map (maskFilter m) := by
    simp only [List.map_map]
    apply List.map_congr_left
    intro c _
    exact cells_maskF m c.data
  rw [hcols]
  have h2 : ∀ c ∈ t.cols.map (fun c => c.data.cells), c.length = m.length := by
    intro c hc
    obtain ⟨c0, hc0, hcc⟩ := List.mem_map.mp hc
    rw [← hcc, cells_length]
    have := List.all_eq_true.mp hwf c0 hc0
    rw [hm]
    exact of_decide_eq_true this
  have := trN_maskFilter m t.index (t.cols.map (fun c => c.data.cells)) (by rw [hm]) h2
  rw [this, hm]

theorem keepFirstOcc_nil {α : Type} [DecidableEq α] :
    keepFirstOcc ([] : List α) = [] := by
  rw [keepFirstOcc.eq_def]

theorem keepFirstOcc_cons {α : Type} [DecidableEq α] (x : α) (xs : List α) :
    keepFirstOcc (x :: xs) = x :: keepFirstOcc (xs.filter (fun y => y ≠ x)) := by
  rw [keepFirstOcc.eq_def]

theorem maskFilter_maskFirstGo {α : Type} [DecidableEq α] (l : List α) :
    ∀ (seen : List α),
      maskFilter (maskFirstGo seen l) l
        = keepFirstOcc (l.filter (fun x => x ∉ seen)) := by
  induction l with
  | nil => intro seen; rw [List.filter_nil, keepFirstOcc_nil]; rfl
  | cons r rs ih =>
    intro seen
    unfold maskFirstGo
    by_cases hr : r ∈ seen
    · rw [if_pos hr]
      show maskFilter (maskFirstGo seen rs) rs = _
      rw [ih seen]
      have hf : (r :: rs).filter (fun x => x ∉ seen)
          = rs.filter (fun x => x ∉ seen) := by
        simp [List.filter_cons, hr]
      rw [hf]
    · rw [if_neg hr]
      show r :: maskFilter (maskFirstGo (r :: seen) rs) rs = _
      rw [ih (r :: seen)]
      have hf : (r :: rs).filter (fun x => x ∉ seen)
          = r :: rs.filter (fun x => x ∉ seen) := by
        simp [List.filter_cons, hr]
      rw [hf, keepFirstOcc_cons]
      apply congrArg (fun l => r :: keepFirstOcc l)
      rw [List.filter_filter]
      apply List.filter_congr
      intro a _
      by_cases h1 : a = r <;> by_cases h2 : a ∈ seen <;> simp [h1, h2]

theorem maskFilter_maskFirst {α : Type} [DecidableEq α] (l : List α) :
    maskFilter (maskFirstGo [] l) l = keepFirstOcc l := by
  rw [maskFilter_maskFirstGo l []]
  apply congrArg keepFirstOcc
  apply List.filter_eq_self.mpr
  intro a _
  simp

theorem maskFilter_append {α : Type} :
    ∀ (m1 m2 : List Bool) (l1 l2 : List α), m1.length = l1.length →
      maskFilter (m1 ++ m2) (l1 ++ l2) = maskFilter m1 l1 ++ maskFilter m2 l2 := by
  intro m1
  induction m1 with
  | nil =>
    intro m2 l1 l2 h
    rw [List.eq_nil_of_length_eq_zero h.symm]
    rfl
  | cons b m1 ih =>
    intro m2 l1 l2 h
    cases l1 with
    | nil => exact absurd h (by simp)
    | cons x l1 =>
      have h' : m1.length = l1.length := Nat.succ.inj h
      cases b with
      | true => exact congrArg (fun l => x :: l) (ih m2 l1 l2 h')
      | false => exact ih m2 l1 l2 h'

theorem maskFilter_reverse {α : Type} :
    ∀ (m : List Bool) (l : List α), m.length = l.length →
      maskFilter m.reverse l.reverse = (maskFilter m l).reverse := by
  intro m
  induction m with
  | nil =>
    intro l h
    rw [List.eq_nil_of_length_eq_zero h.symm]
    rfl
  | cons b m ih =>
    intro l h
    cases l with
    | nil => exact absurd h (by simp)
    | cons x xs =>
      have h' : m.length = xs.length := Nat.succ.inj h
      rw [List.reverse_cons, List.reverse_cons,
        maskFilter_append m.reverse [b] xs.reverse [x] (by simp [h']),
        ih xs h']
      cases b with
      | true =>
        show (maskFilter m xs).reverse ++ [x] = (x :: maskFilter m xs).reverse
        rw [List.reverse_cons]
      | false =>
        show (maskFilter m xs).reverse ++ ([] : List α) = (maskFilter m xs).reverse
        rw [List.append_nil]

theorem keepFirstOcc_sublist {α : Type} [DecidableEq α] :
    ∀ (l : List α), List.Sublist (keepFirstOcc l) l
  | [] => by rw [keepFirstOcc_nil]
  | x :: xs => by
    rw [keepFirstOcc_cons]
    exact List.Sublist.cons₂ x
      ((keepFirstOcc_sublist (xs.filter (fun y => y ≠ x))).trans
        (List.filter_sublist xs))
termination_by l => l.length
decreasing_by
  simp only [List.length_cons]
  exact Nat.lt_succ_of_le (List.length_filter_le _ _)

theorem keepFirstOcc_mem {α : Type} [DecidableEq α] :
    ∀ (l : List α) (a : α), a ∈ keepFirstOcc l ↔ a ∈ l
  | [], a => by rw [keepFirstOcc_nil]
  | x :: xs, a => by
    rw [keepFirstOcc_cons]
    constructor
    · intro h
      rcases List.mem_cons.mp h with h1 | h2
      · rw [h1]; exact List.mem_cons_self x xs
      · have := (keepFirstOcc_mem (xs.filter (fun y => y ≠ x)) a).mp h2
        exact List.mem_cons_of_mem x (List.mem_of_mem_filter this)
    · intro h
      by_cases hax : a = x
      · rw [hax]; exact List.mem_cons_self x (keepFirstOcc (xs.filter (fun y => y ≠ x)))
      · rcases List.mem_cons.mp h with h1 | h2
        · exact absurd h1 hax
        · exact List.mem_cons_of_mem x ((keepFirstOcc_mem _ a).mpr
            (List.mem_filter.mpr ⟨h2, by simp [hax]⟩))
termination_by l a => l.length
decreasing_by
  all_goals simp only [List.length_cons]
  all_goals exact Nat.lt_succ_of_le (List.length_filter_le _ _)

theorem keepFirstOcc_nodup {α : Type} [DecidableEq α] :
    ∀ (l : List α), (keepFirstOcc l).Nodup
  | [] => by rw [keepFirstOcc_nil]; exact List.nodup_nil
  | x :: xs => by
    rw [keepFirstOcc_cons]
    refine List.Nodup.cons ?_ (keepFirstOcc_nodup (xs.filter (fun y => y ≠ x)))
    intro hx
    have hm := (keepFirstOcc_mem _ x).mp hx
    rcases List.mem_filter.mp hm with ⟨-, hne⟩
    simp at hne
termination_by l => l.length
decreasing_by
  simp only [List.length_cons]
  exact Nat.lt_succ_of_le (List.length_filter_le _ _)

theorem keepLastOcc_sublist {α : Type} [DecidableEq α] (l : List α) :
    List.Sublist (keepLastOcc l) l := by
  unfold keepLastOcc
  have := List.reverse_sublist.mpr (keepFirstOcc_sublist l.reverse)
  rw [List.reverse_reverse] at this
  exact this

theorem keepLastOcc_mem {α : Type} [DecidableEq α] (l : List α) (a : α) :
    a ∈ keepLastOcc l ↔ a ∈ l := by
  unfold keepLastOcc
  rw [List.mem_reverse, keepFirstOcc_mem, List.mem_reverse]

theorem keepLastOcc_nodup {α : Type} [DecidableEq α] (l : List α) :
    (keepLastOcc l).Nodup := by
  unfold keepLastOcc
  rw [List.nodup_reverse]
  exact keepFirstOcc_nodup l.reverse


/-- C3: `handle_duplicates` raises `ValueError` whenever `keep` is neither
`"first"` nor `"last"`; for `keep="first"` (resp. `"last"`) it removes all
but the first (resp. last) occurrence of each group of fully-equal rows —
the surviving row sequence is exactly `keepFirstOcc` (resp. `keepLastOcc`)
of the original rows, hence a duplicate-free subsequence (relative order
preserved) with the same row set — and reindexes the survivors to dense
0-based positions. -/
theorem C3_handle_duplicates (t : Table) (keep : String) (hwf : t.wf = true) :
    (keep ≠ "first" → keep ≠ "last" →
      handle_duplicates t keep = Except.error PyErr.valueError)
    ∧ (∀ t', handle_duplicates t ("first") = .ok t' →
        t'.rows = keepFirstOcc t.rows
        ∧ List.Sublist t'.rows t.rows
        ∧ t'.rows.Nodup
        ∧ (∀ r : Row, r ∈ t'.rows ↔ r ∈ t.rows)
        ∧ t'.index = List.range t'.rows.length)
    ∧ (∀ t', handle_duplicates t ("last") = .ok t' →
        t'.rows = keepLastOcc t.rows
        ∧ List.Sublist t'.rows t.rows
        ∧ t'.rows.Nodup
        ∧ (∀ r : Row, r ∈ t'.rows ↔ r ∈ t.rows)
        ∧ t'.index = List.range t'.rows.length) := by
  refine ⟨?_, ?_, ?_⟩
  · intro h1 h2
    unfold handle_duplicates dropDupStep
    rw [if_neg (fun hor => hor.elim h1 h2)]
  · intro t' h
    have hmlen : (maskFirstGo ([] : List Row) t.rows).length = t.index.length := by
      rw [maskFirstGo_length]
      exact rows_length t
    have hd : handle_duplicates t ("first")
        = .ok (resetIndexStep ⟨maskFilter (maskFirstGo [] t.rows) t.index,
            t.cols.map (fun c =>
              { c with data := c.data.maskF (maskFirstGo [] t.rows) })⟩) := by
      unfold handle_duplicates dropDupStep
      rw [if_pos (Or.inl rfl)]
      rfl
    rw [hd] at h
    rw [← Except.ok.inj h]
    have hrows : (resetIndexStep ⟨maskFilter (maskFirstGo [] t.rows) t.index,
        t.cols.map (fun c =>
          { c with data := c.data.maskF (maskFirstGo [] t.rows) })⟩).rows
        = keepFirstOcc t.rows := by
      rw [rows_resetIndex, rows_maskTable t _ hwf hmlen, maskFilter_maskFirst]
    refine ⟨hrows, ?_, ?_, ?_, ?_⟩
    · rw [hrows]; exact keepFirstOcc_sublist t.rows
    · rw [hrows]; exact keepFirstOcc_nodup t.rows
    · intro r; rw [hrows]; exact keepFirstOcc_mem t.rows r
    · rw [hrows]
      show List.range (maskFilter (maskFirstGo [] t.rows) t.index).length = _
      apply congrArg List.range
      rw [maskFilter_length_eq (maskFirstGo [] t.rows) t.index t.rows
        (rows_length t).symm, maskFilter_maskFirst]
  · intro t' h
    have hlen2 : (maskFirstGo ([] : List Row) t.rows.reverse).length
        = t.rows.reverse.length := maskFirstGo_length _ _
    have hmlen : ((maskFirstGo ([] : List Row) t.rows.reverse).reverse).length
        = t.index.length := by
      rw [List.length_reverse, maskFirstGo_length, List.length_reverse]
      exact rows_length t
    have hfilter : maskFilter ((maskFirstGo [] t.rows.reverse).reverse) t.rows
        = keepLastOcc t.rows := by
      have h1 := maskFilter_reverse (maskFirstGo [] t.rows.reverse) t.rows.reverse hlen2
      rw [List.reverse_reverse] at h1
      rw [h1, maskFilter_maskFirst]
      rfl
    have hd : handle_duplicates t ("last")
        = .ok (resetIndexStep ⟨maskFilter ((maskFirstGo [] t.rows.reverse).reverse) t.index,
            t.cols.map (fun c =>
              { c with data := c.data.maskF ((maskFirstGo [] t.rows.reverse).reverse) })⟩) := by
      unfold handle_duplicates dropDupStep
      rw [if_pos (Or.inr rfl)]
      rfl
    rw [hd] at h
    rw [← Except.ok.inj h]
    have hrows : (resetIndexStep ⟨maskFilter ((maskFirstGo [] t.rows.reverse).reverse) t.index,
        t.cols.map (fun c =>
          { c with data := c.data.maskF ((maskFirstGo [] t.rows.reverse).reverse) })⟩).rows
        = keepLastOcc t.rows := by
      rw [rows_resetIndex, rows_maskTable t _ hwf hmlen, hfilter]
    refine ⟨hrows, ?_, ?_, ?_, ?_⟩
    · rw [hrows]; exact keepLastOcc_sublist t.rows
    · rw [hrows]; exact keepLastOcc_nodup t.rows
    · intro r; rw [hrows]; exact keepLastOcc_mem t.rows r
    · rw [hrows]
      show List.range (maskFilter ((maskFirstGo [] t.rows.reverse).reverse) t.index).length = _
      apply congrArg List.range
      rw [maskFilter_length_eq ((maskFirstGo [] t.rows.reverse).reverse) t.index t.rows
        (rows_length t).symm, hfilter]

/-- The table witnessing C3: rows 0, 2 and 3 are fully equal. -/
def dupTable : Table :=
  ⟨[0, 1, 2, 3], [⟨"a", .ints [1, 2, 1, 1]⟩,
    ⟨"b", .strs [some ("x"), some ("y"), some ("x"), some ("z")]⟩]⟩

/-- Output of `handle_duplicates dupTable "first"`. -/
def dupTableFirst : Table :=
  ⟨[0, 1, 2], [⟨"a", .ints [1, 2, 1]⟩,
    ⟨"b", .strs [some ("x"), some ("y"), some ("z")]⟩]⟩

/-- Witness for C3 at a concrete table with duplicate rows: an invalid keep
policy raises, and the `"first"` policy keeps the first occurrences with a
dense 0-based index. -/
theorem C3_witness :
    dupTable.wf = true
    ∧ handle_duplicates dupTable ("keep-all") = Except.error PyErr.valueError
    ∧ dupTableFirst.rows = keepFirstOcc dupTable.rows
    ∧ dupTableFirst.index = List.range dupTableFirst.rows.length := by
  refine ⟨by decide, ?_, ?_, ?_⟩
  · exact (C3_handle_duplicates dupTable ("keep-all") (by decide)).1
      (by decide) (by decide)
  · exact ((C3_handle_duplicates dupTable ("first") (by decide)).2.1
      dupTableFirst (by decide)).1
  · exact ((C3_handle_duplicates dupTable ("first") (by decide)).2.1
      dupTableFirst (by decide)).2.2.2.2

end Cleaning
